import Mathlib

/-!
Verification of the SPLINTER polynomial basis engine (`src/polynomial.cpp`).

The scalar type `double` is modelled by `ℚ`; all points and degree values
appearing in the concrete examples are small integers, where rational and
double arithmetic agree exactly.  `std::vector<unsigned int>` becomes
`List Nat`, Eigen dense vectors become `List ℚ`.  C++ exceptions become
the `Except` monad with an error code per distinct throw site.
-/

namespace SPLINTER

/-- Error codes for the exceptions the polynomial code can raise:
`invalidArgument` for the "invalid variable" throw in
`evalDifferentiatedMonomials`, `invariantViolation` for the
"monomials.rows() != numCoefficients" throws, and `outOfRange` for
`std::out_of_range` raised by `std::vector::at`. -/
inductive PolyError where
  | invalidArgument
  | invariantViolation
  | outOfRange
deriving DecidableEq

/-- Model of bounds-checked element access `std::vector::at(i)`, which throws
`std::out_of_range` when `i` is not a valid index. -/
def atExc (l : List Nat) (i : Nat) : Except PolyError Nat :=
  match l[i]? with
  | some a => Except.ok a
  | none => Except.error PolyError.outOfRange

/-- Modelled from the spec: the binary Kronecker product of two vectors used by
the missing header `mykroneckerproduct.h` (`kroneckerProduct(a, b)`), whose
entries are all products `a_i * b_j` with the second factor varying fastest. -/
def kronVec (a b : List ℚ) : List ℚ :=
  a.flatMap (fun ai => b.map (fun bj => ai * bj))

/-- Modelled from the spec: `kroneckerProductVectors` from the missing header
`mykroneckerproduct.h`: accumulate a running vector, starting from the
one-entry vector `[1]`, by Kronecker-multiplying in the next dimension's
vector, in dimension order (dimension 0 outermost, last dimension
innermost/fastest-varying). -/
def kroneckerProductVectors (vs : List (List ℚ)) : List ℚ :=
  vs.foldl kronVec [1]

/-- Embedding of `Polynomial::computeNumBasisFunctions` (polynomial.cpp lines
46-53): accumulator starts at 1 and is multiplied by `deg + 1` for each entry
of the degree spec. -/
def computeNumBasisFunctions (degrees : List Nat) : Nat :=
  degrees.foldl (fun numMonomials deg => numMonomials * (deg + 1)) 1

/-- The polynomial model.  `numVariables` and `coefficients` live in the
`LinearFunction` base class; `degrees` is the member of `Polynomial` itself. -/
structure Polynomial where
  numVariables : Nat
  degrees : List Nat
  coefficients : List ℚ

/-- Embedding of the constructor `Polynomial(std::vector<unsigned int> degrees)`
(polynomial.cpp lines 34-38): base initialized with `degrees.size()` variables
and the coefficient vector `DenseVector::Zero(computeNumBasisFunctions(degrees))`. -/
def Polynomial.ofDegrees (degrees : List Nat) : Polynomial :=
  { numVariables := degrees.length
    degrees := degrees
    coefficients := List.replicate (computeNumBasisFunctions degrees) 0 }

/-- Embedding of the constructor
`Polynomial(unsigned int numVariables, unsigned int degree)` (polynomial.cpp
lines 28-31), which delegates to the degree-spec constructor with
`std::vector<unsigned int>(numVariables, degree)`. -/
def Polynomial.ofUniformDegree (numVariables degree : Nat) : Polynomial :=
  Polynomial.ofDegrees (List.replicate numVariables degree)

/-- Embedding of the constructor
`Polynomial(std::vector<unsigned int> degrees, DenseVector coefficients)`
(polynomial.cpp lines 40-44): the caller-supplied coefficient vector is stored
without any validation against the degree spec. -/
def Polynomial.ofDegreesCoefficients (degrees : List Nat) (coefficients : List ℚ) :
    Polynomial :=
  { numVariables := degrees.length
    degrees := degrees
    coefficients := coefficients }

/-- Embedding of `LinearFunction::getNumCoefficients`: the size of the stored
coefficient vector. -/
def Polynomial.getNumCoefficients (p : Polynomial) : Nat :=
  p.coefficients.length

/-- The per-dimension power vector built by the loop at polynomial.cpp lines
64-68: entry `j` (for `0 ≤ j ≤ deg`) is `std::pow(x(i), j)`; in particular
entry 0 is `x_i ^ 0 = 1`, also when `x_i = 0`. -/
def powerVector (xi : ℚ) (deg : Nat) : List ℚ :=
  (List.range (deg + 1)).map (fun j => xi ^ j)

/-- The differentiated per-dimension power vector built by the loop at
polynomial.cpp lines 102-108: the vector starts as `DenseVector::Zero(deg+1)`
and only entries `j = 1..deg` are overwritten with `j * std::pow(x(i), j-1)`,
so entry 0 stays 0. -/
def derivPowerVector (xi : ℚ) (deg : Nat) : List ℚ :=
  (List.range (deg + 1)).map (fun (j : ℕ) => if j = 0 then 0 else (j : ℚ) * xi ^ (j - 1))

/-- Embedding of `Polynomial::evalBasisFunctions` (polynomial.cpp lines 58-80):
build the per-dimension power vectors (reading `degrees.at(i)` checked), take
their Kronecker product, and throw when the result length disagrees with the
number of coefficients. -/
def Polynomial.evalBasisFunctions (p : Polynomial) (x : List ℚ) :
    Except PolyError (List ℚ) := do
  let powers ← (List.range p.numVariables).mapM (fun i => do
    let deg ← atExc p.degrees i
    pure (powerVector (x.getD i 0) deg))
  let monomials := kroneckerProductVectors powers
  if monomials.length ≠ p.getNumCoefficients then
    throw PolyError.invariantViolation
  return monomials

/-- Embedding of `Polynomial::evalDifferentiatedMonomials` (polynomial.cpp
lines 92-126): throw `invalidArgument` when `var` is not a valid dimension
index, otherwise perform the same construction as `evalBasisFunctions` with
dimension `var`'s power vector replaced by the differentiated one. -/
def Polynomial.evalDifferentiatedMonomials (p : Polynomial) (x : List ℚ)
    (var : Nat) : Except PolyError (List ℚ) := do
  if var ≥ p.numVariables then
    throw PolyError.invalidArgument
  let powers ← (List.range p.numVariables).mapM (fun i => do
    let deg ← atExc p.degrees i
    pure (if var = i then derivPowerVector (x.getD i 0) deg
          else powerVector (x.getD i 0) deg))
  let monomials := kroneckerProductVectors powers
  if monomials.length ≠ p.getNumCoefficients then
    throw PolyError.invariantViolation
  return monomials

/-- Embedding of `Polynomial::evalBasisFunctionsJacobian` (polynomial.cpp lines
82-90): the matrix is represented by its list of columns, column `var` being
`evalDifferentiatedMonomials(x, var)`. -/
def Polynomial.evalBasisFunctionsJacobian (p : Polynomial) (x : List ℚ) :
    Except PolyError (List (List ℚ)) :=
  (List.range p.numVariables).mapM (fun var => p.evalDifferentiatedMonomials x var)

/-- Embedding of `Polynomial::getDescription` (polynomial.cpp lines 141-171):
starts from the string "PolynomialApproximant of degree", decides whether all
adjacent degrees are equal, and either appends a space and `degrees.at(0)`
(which throws for an empty spec) or appends an "s" and the parenthesized
comma-separated degree list. -/
def Polynomial.getDescription (p : Polynomial) : Except PolyError String := do
  let description := "PolynomialApproximant of degree"
  let equal := (List.range (p.degrees.length - 1)).all
    (fun i => p.degrees.getD (i + 1) 0 == p.degrees.getD i 0)
  if equal then
    let d0 ← atExc p.degrees 0
    return description ++ " " ++ toString d0
  else
    return description ++ "s (" ++
      String.intercalate ", " (p.degrees.map (fun d => toString d)) ++ ")"

/-- The list of per-dimension power vectors of a degree spec at a point, in
dimension order; `evalBasisFunctions` Kronecker-multiplies exactly these. -/
def powerVectors (ds : List Nat) (x : List ℚ) : List (List ℚ) :=
  (List.range ds.length).map (fun i => powerVector (x.getD i 0) (ds.getD i 0))

/-- The list of per-dimension power vectors with dimension `v` differentiated;
`evalDifferentiatedMonomials` Kronecker-multiplies exactly these. -/
def diffPowerVectors (ds : List Nat) (x : List ℚ) (v : Nat) : List (List ℚ) :=
  (List.range ds.length).map (fun i =>
    if v = i then derivPowerVector (x.getD i 0) (ds.getD i 0)
    else powerVector (x.getD i 0) (ds.getD i 0))

/-! Helper lemmas about the embedded operations. -/

theorem except_bind_ok {α β : Type} (a : α) (f : α → Except PolyError β) :
    (Except.ok a >>= f : Except PolyError β) = f a := rfl

theorem except_bind_error {α β : Type} (e : PolyError) (f : α → Except PolyError β) :
    (Except.error e >>= f : Except PolyError β) = Except.error e := rfl

theorem atExc_lt {l : List Nat} {i : Nat} (h : i < l.length) :
    atExc l i = Except.ok (l.getD i 0) := by
  simp [atExc, List.getElem?_eq_getElem h, List.getD_eq_getElem?_getD]

theorem atExc_ge {l : List Nat} {i : Nat} (h : l.length ≤ i) :
    atExc l i = Except.error PolyError.outOfRange := by
  simp [atExc, List.getElem?_eq_none h]

theorem atExc_error {l : List Nat} {i : Nat} {e : PolyError}
    (h : atExc l i = Except.error e) : e = PolyError.outOfRange := by
  unfold atExc at h
  cases hl : l[i]? with
  | none => rw [hl] at h; exact (Except.error.injEq _ _).mp h.symm
  | some a => rw [hl] at h; exact absurd h (by simp)

theorem length_kronVec (a b : List ℚ) :
    (kronVec a b).length = a.length * b.length := by
  induction a with
  | nil => simp [kronVec]
  | cons x a ih =>
    simp only [kronVec, List.flatMap_cons] at *
    simp [ih, Nat.succ_mul, Nat.add_comm]

theorem length_foldl_kronVec (vs : List (List ℚ)) :
    ∀ (a : List ℚ), (vs.foldl kronVec a).length = a.length * (vs.map List.length).prod := by
  induction vs with
  | nil => intro a; simp
  | cons v vs ih =>
    intro a
    simp only [List.foldl_cons, List.map_cons, List.prod_cons]
    rw [ih (kronVec a v), length_kronVec, Nat.mul_assoc]

theorem length_kroneckerProductVectors (vs : List (List ℚ)) :
    (kroneckerProductVectors vs).length = (vs.map List.length).prod := by
  unfold kroneckerProductVectors
  rw [length_foldl_kronVec]
  simp

theorem foldl_mul_succ (ds : List Nat) :
    ∀ (a : Nat), ds.foldl (fun acc d => acc * (d + 1)) a = a * (ds.map (fun d => d + 1)).prod := by
  induction ds with
  | nil => intro a; simp
  | cons d ds ih =>
    intro a
    simp only [List.foldl_cons, List.map_cons, List.prod_cons]
    rw [ih (a * (d + 1)), Nat.mul_assoc]

theorem computeNumBasisFunctions_eq_prod (ds : List Nat) :
    computeNumBasisFunctions ds = (ds.map (fun d => d + 1)).prod := by
  unfold computeNumBasisFunctions
  rw [foldl_mul_succ]
  simp

theorem map_range_getD {α : Type} (f : Nat → α) (ds : List Nat) :
    (List.range ds.length).map (fun i => f (ds.getD i 0)) = ds.map f := by
  induction ds with
  | nil => rfl
  | cons d ds ih =>
    simp only [List.length_cons, List.range_succ_eq_map, List.map_cons, List.map_map]
    rw [List.getD_cons_zero]
    congr 1

theorem length_powerVector (xi : ℚ) (deg : Nat) :
    (powerVector xi deg).length = deg + 1 := by
  simp [powerVector]

theorem length_derivPowerVector (xi : ℚ) (deg : Nat) :
    (derivPowerVector xi deg).length = deg + 1 := by
  simp [derivPowerVector]

theorem mapM_ok_of {α β : Type} (F : α → Except PolyError β) (G : α → β) :
    ∀ (l : List α), (∀ i ∈ l, F i = Except.ok (G i)) →
      l.mapM F = Except.ok (l.map G) := by
  intro l
  induction l with
  | nil => intro _; rfl
  | cons a l ih =>
    intro h
    rw [List.mapM_cons, h a (List.mem_cons_self a l),
      ih (fun i hi => h i (List.mem_cons_of_mem a hi))]
    rfl

theorem mapM_error_imp {α β : Type} (F : α → Except PolyError β)
    (P : PolyError → Prop) :
    ∀ (l : List α), (∀ i ∈ l, ∀ e, F i = Except.error e → P e) →
      ∀ e, l.mapM F = Except.error e → P e := by
  intro l
  induction l with
  | nil =>
    intro _ e he
    rw [List.mapM_nil] at he
    simp [pure, Except.pure] at he
  | cons a l ih =>
    intro h e he
    rw [List.mapM_cons] at he
    cases hFa : F a with
    | error e' =>
      rw [hFa, except_bind_error] at he
      exact (Except.error.injEq _ _).mp he.symm ▸ h a (List.mem_cons_self a l) e' hFa
    | ok b =>
      rw [hFa, except_bind_ok] at he
      cases hl : l.mapM F with
      | error e' =>
        rw [hl, except_bind_error] at he
        have : e' = e := (Except.error.injEq _ _).mp he
        exact this ▸ ih (fun i hi => h i (List.mem_cons_of_mem a hi)) e' hl
      | ok bs =>
        rw [hl, except_bind_ok] at he
        simp [pure, Except.pure] at he

theorem prod_map_length_powerVectors (ds : List Nat) (x : List ℚ) :
    ((powerVectors ds x).map List.length).prod = computeNumBasisFunctions ds := by
  unfold powerVectors
  rw [List.map_map]
  have h1 : (List.range ds.length).map
      (List.length ∘ fun i => powerVector (x.getD i 0) (ds.getD i 0)) =
      (List.range ds.length).map (fun i => (fun d => d + 1) (ds.getD i 0)) := by
    simp [Function.comp, length_powerVector]
  rw [h1, map_range_getD (fun d => d + 1) ds, computeNumBasisFunctions_eq_prod]

theorem prod_map_length_diffPowerVectors (ds : List Nat) (x : List ℚ) (v : Nat) :
    ((diffPowerVectors ds x v).map List.length).prod = computeNumBasisFunctions ds := by
  unfold diffPowerVectors
  rw [List.map_map]
  have h1 : (List.range ds.length).map
      (List.length ∘ fun i =>
        if v = i then derivPowerVector (x.getD i 0) (ds.getD i 0)
        else powerVector (x.getD i 0) (ds.getD i 0)) =
      (List.range ds.length).map (fun i => (fun d => d + 1) (ds.getD i 0)) := by
    simp [Function.comp, length_powerVector, length_derivPowerVector,
      apply_ite List.length]
  rw [h1, map_range_getD (fun d => d + 1) ds, computeNumBasisFunctions_eq_prod]

theorem evalBasisFunctions_ofDegrees (ds : List Nat) (x : List ℚ) :
    (Polynomial.ofDegrees ds).evalBasisFunctions x =
      Except.ok (kroneckerProductVectors (powerVectors ds x)) := by
  have hok : ∀ i ∈ List.range ds.length,
      (do
        let deg ← atExc ds i
        pure (powerVector (x.getD i 0) deg) : Except PolyError (List ℚ)) =
        Except.ok (powerVector (x.getD i 0) (ds.getD i 0)) := by
    intro i hi
    rw [atExc_lt (List.mem_range.mp hi)]
    rfl
  have hlen : (kroneckerProductVectors (powerVectors ds x)).length =
      computeNumBasisFunctions ds := by
    rw [length_kroneckerProductVectors, prod_map_length_powerVectors]
  unfold Polynomial.evalBasisFunctions
  rw [show (Polynomial.ofDegrees ds).numVariables = ds.length from rfl,
    show (Polynomial.ofDegrees ds).degrees = ds from rfl,
    mapM_ok_of _ (fun i => powerVector (x.getD i 0) (ds.getD i 0)) _ hok,
    except_bind_ok]
  have hco : (Polynomial.ofDegrees ds).getNumCoefficients = computeNumBasisFunctions ds := by
    simp [Polynomial.getNumCoefficients, Polynomial.ofDegrees]
  simp only [powerVectors, List.getD_eq_getElem?_getD] at hlen
  simp [hlen, hco, pure, Except.pure, except_bind_ok, except_bind_error, powerVectors]

theorem evalDifferentiatedMonomials_ofDegrees (ds : List Nat) (x : List ℚ)
    (v : Nat) (h : v < ds.length) :
    (Polynomial.ofDegrees ds).evalDifferentiatedMonomials x v =
      Except.ok (kroneckerProductVectors (diffPowerVectors ds x v)) := by
  have hok : ∀ i ∈ List.range ds.length,
      (do
        let deg ← atExc ds i
        pure (if v = i then derivPowerVector (x.getD i 0) deg
              else powerVector (x.getD i 0) deg) : Except PolyError (List ℚ)) =
        Except.ok (if v = i then derivPowerVector (x.getD i 0) (ds.getD i 0)
              else powerVector (x.getD i 0) (ds.getD i 0)) := by
    intro i hi
    rw [atExc_lt (List.mem_range.mp hi)]
    rfl
  have hlen : (kroneckerProductVectors (diffPowerVectors ds x v)).length =
      computeNumBasisFunctions ds := by
    rw [length_kroneckerProductVectors, prod_map_length_diffPowerVectors]
  unfold Polynomial.evalDifferentiatedMonomials
  rw [show (Polynomial.ofDegrees ds).numVariables = ds.length from rfl,
    show (Polynomial.ofDegrees ds).degrees = ds from rfl]
  rw [if_neg (by omega : ¬ v ≥ ds.length)]
  rw [mapM_ok_of _ (fun i =>
      if v = i then derivPowerVector (x.getD i 0) (ds.getD i 0)
      else powerVector (x.getD i 0) (ds.getD i 0)) _ hok,
    except_bind_ok]
  have hco : (Polynomial.ofDegrees ds).getNumCoefficients = computeNumBasisFunctions ds := by
    simp [Polynomial.getNumCoefficients, Polynomial.ofDegrees]
  simp only [diffPowerVectors, List.getD_eq_getElem?_getD] at hlen
  simp [hlen, hco, pure, Except.pure, except_bind_ok, except_bind_error, diffPowerVectors]

theorem evalBasisFunctionsJacobian_ofDegrees (ds : List Nat) (x : List ℚ) :
    (Polynomial.ofDegrees ds).evalBasisFunctionsJacobian x =
      Except.ok ((List.range ds.length).map (fun v =>
        kroneckerProductVectors (diffPowerVectors ds x v))) := by
  unfold Polynomial.evalBasisFunctionsJacobian
  exact mapM_ok_of _ _ _ (fun v hv =>
    evalDifferentiatedMonomials_ofDegrees ds x v (List.mem_range.mp hv))

theorem except_throw {α : Type} (e : PolyError) :
    (throw e : Except PolyError α) = Except.error e := rfl

theorem except_pure {α : Type} (a : α) :
    (pure a : Except PolyError α) = Except.ok a := rfl

theorem bind_atExc_error {α : Type} (ds : List Nat) (i : Nat) (g : Nat → α)
    {e : PolyError}
    (h : (do
      let deg ← atExc ds i
      pure (g deg) : Except PolyError α) = Except.error e) :
    e = PolyError.outOfRange := by
  cases ha : atExc ds i with
  | ok d =>
    rw [ha, except_bind_ok] at h
    simp [pure, Except.pure] at h
  | error e' =>
    rw [ha, except_bind_error] at h
    injection h with h1
    exact h1 ▸ atExc_error ha

theorem kronVec_zero_right (a b : List ℚ) (hb : ∀ y ∈ b, y = 0) :
    ∀ y ∈ kronVec a b, y = 0 := by
  intro y hy
  simp only [kronVec, List.mem_flatMap, List.mem_map] at hy
  obtain ⟨ai, _, bj, hbj, rfl⟩ := hy
  rw [hb bj hbj, mul_zero]

theorem kronVec_zero_left (a b : List ℚ) (ha : ∀ y ∈ a, y = 0) :
    ∀ y ∈ kronVec a b, y = 0 := by
  intro y hy
  simp only [kronVec, List.mem_flatMap, List.mem_map] at hy
  obtain ⟨ai, hai, bj, _, rfl⟩ := hy
  rw [ha ai hai, zero_mul]

theorem foldl_kronVec_zero_acc (vs : List (List ℚ)) :
    ∀ (a : List ℚ), (∀ y ∈ a, y = 0) → ∀ y ∈ vs.foldl kronVec a, y = 0 := by
  induction vs with
  | nil => intro a ha; exact ha
  | cons v vs ih =>
    intro a ha
    simp only [List.foldl_cons]
    exact ih (kronVec a v) (kronVec_zero_left a v ha)

theorem foldl_kronVec_zero_mem (w : List ℚ) (hz : ∀ y ∈ w, y = 0) :
    ∀ (vs : List (List ℚ)), w ∈ vs →
      ∀ (a : List ℚ), ∀ y ∈ vs.foldl kronVec a, y = 0 := by
  intro vs
  induction vs with
  | nil => intro hw; cases hw
  | cons v vs ih =>
    intro hw a
    simp only [List.foldl_cons]
    rcases List.mem_cons.mp hw with h | h
    · subst h
      exact foldl_kronVec_zero_acc vs (kronVec a w) (kronVec_zero_right a w hz)
    · exact ih h (kronVec a v)

theorem kroneckerProductVectors_zero_of_mem (vs : List (List ℚ)) (w : List ℚ)
    (hw : w ∈ vs) (hz : ∀ y ∈ w, y = 0) :
    ∀ y ∈ kroneckerProductVectors vs, y = 0 :=
  foldl_kronVec_zero_mem w hz vs hw [1]

theorem getD_map_range {α : Type} (f : Nat → α) (n v : Nat) (hv : v < n) (d : α) :
    ((List.range n).map f).getD v d = f v := by
  rw [List.getD_eq_getElem?_getD,
    List.getElem?_eq_getElem (by simpa using hv)]
  simp

theorem mem_diffPowerVectors (ds : List Nat) (x : List ℚ) (v : Nat)
    (hv : v < ds.length) :
    derivPowerVector (x.getD v 0) (ds.getD v 0) ∈ diffPowerVectors ds x v := by
  unfold diffPowerVectors
  have h1 : derivPowerVector (x.getD v 0) (ds.getD v 0) =
      (fun i => if v = i then derivPowerVector (x.getD i 0) (ds.getD i 0)
        else powerVector (x.getD i 0) (ds.getD i 0)) v := by simp
  rw [h1]
  exact List.mem_map_of_mem _ (List.mem_range.mpr hv)

theorem getDescription_equal (p : Polynomial) (hne : p.degrees ≠ [])
    (hall : ((List.range (p.degrees.length - 1)).all
      (fun i => p.degrees.getD (i + 1) 0 == p.degrees.getD i 0)) = true) :
    p.getDescription =
      Except.ok ("PolynomialApproximant of degree" ++ " " ++
        toString (p.degrees.getD 0 0)) := by
  have h0 : 0 < p.degrees.length := List.length_pos.mpr hne
  unfold Polynomial.getDescription
  rw [hall, if_pos rfl, atExc_lt h0, except_bind_ok]
  rfl

theorem getDescription_nonuniform (p : Polynomial)
    (hall : ((List.range (p.degrees.length - 1)).all
      (fun i => p.degrees.getD (i + 1) 0 == p.degrees.getD i 0)) = false) :
    p.getDescription =
      Except.ok ("PolynomialApproximant of degree" ++ "s (" ++
        String.intercalate ", " (p.degrees.map (fun d => toString d)) ++ ")") := by
  unfold Polynomial.getDescription
  rw [hall, if_neg (by simp)]
  rfl

/-! Claim theorems. -/

/-- C2: computeNumBasisFunctions equals the product over all degree-spec
entries of (degree + 1), computed by a fold whose accumulator starts at 1 and
is multiplied by (degree + 1) per entry; in particular it returns 1 for the
empty spec (zero variables). -/
theorem computeNumBasisFunctions_spec :
    (∀ ds : List Nat,
      computeNumBasisFunctions ds = (ds.map (fun d => d + 1)).prod) ∧
    computeNumBasisFunctions [] = 1 :=
  ⟨computeNumBasisFunctions_eq_prod, rfl⟩

/-- C1: for models built from an explicit per-dimension degree spec (zero
coefficients) or from a uniform degree over N variables, the coefficient
vector length equals computeNumBasisFunctions(degrees), and for every point x
of length numVariables, evalBasisFunctions returns without error a basis
vector whose length equals computeNumBasisFunctions(degrees). -/
theorem basis_length_invariant :
    ∀ ds : List Nat,
      (Polynomial.ofDegrees ds).coefficients.length = computeNumBasisFunctions ds ∧
      (∀ n d : Nat, (Polynomial.ofUniformDegree n d).coefficients.length =
        computeNumBasisFunctions (Polynomial.ofUniformDegree n d).degrees) ∧
      ∀ x : List ℚ, x.length = (Polynomial.ofDegrees ds).numVariables →
        Except.map List.length ((Polynomial.ofDegrees ds).evalBasisFunctions x) =
          Except.ok (computeNumBasisFunctions ds) := by
  intro ds
  refine ⟨by simp [Polynomial.ofDegrees],
    fun n d => by simp [Polynomial.ofUniformDegree, Polynomial.ofDegrees], ?_⟩
  intro x _
  rw [evalBasisFunctions_ofDegrees]
  simp [Except.map, length_kroneckerProductVectors, prod_map_length_powerVectors]

/-- Witness for C1 at degrees [1, 1] and the point x = [2, 5]. -/
theorem basis_length_invariant_witness :
    ([(2:ℚ), 5].length = (Polynomial.ofDegrees [1, 1]).numVariables) ∧
    Except.map List.length ((Polynomial.ofDegrees [1, 1]).evalBasisFunctions [2, 5]) =
      Except.ok (computeNumBasisFunctions [1, 1]) :=
  ⟨rfl, (basis_length_invariant [1, 1]).2.2 [2, 5] rfl⟩

/-- C3: the basis vector is the Kronecker product of the per-dimension power
vectors taken in dimension order with the last dimension varying fastest; in
particular, for degrees [1, 1] and x = [2, 5], evalBasisFunctions returns
[1, 5, 2, 10], and the Jacobian columns are [0, 0, 1, 5] for dimension 0 and
[0, 1, 0, 2] for dimension 1. -/
theorem basis_kronecker_order :
    (∀ (ds : List Nat) (x : List ℚ),
      (Polynomial.ofDegrees ds).evalBasisFunctions x =
        Except.ok (kroneckerProductVectors (powerVectors ds x))) ∧
    (Polynomial.ofDegrees [1, 1]).evalBasisFunctions [2, 5] =
      Except.ok [1, 5, 2, 10] ∧
    (Polynomial.ofDegrees [1, 1]).evalBasisFunctionsJacobian [2, 5] =
      Except.ok [[0, 0, 1, 5], [0, 1, 0, 2]] := by
  refine ⟨evalBasisFunctions_ofDegrees, ?_, ?_⟩
  · rw [evalBasisFunctions_ofDegrees]
    norm_num [powerVectors, powerVector, kroneckerProductVectors, kronVec,
      List.range_succ]
  · rw [evalBasisFunctionsJacobian_ofDegrees]
    norm_num [diffPowerVectors, powerVector, derivPowerVector,
      kroneckerProductVectors, kronVec, List.range_succ]

/-- C4: for each dimension i of degree d_i, the power vector's entry j equals
x_i raised to the j-th power for 0 ≤ j ≤ d_i, with entry 0 equal to 1 even at
x_i = 0 (convention 0^0 = 1); in particular, degrees [2] at x = [3] yields
the basis vector [1, 3, 9]. -/
theorem power_vector_entries :
    (∀ (xi : ℚ) (deg j : Nat), j < deg + 1 →
      (powerVector xi deg).getD j 0 = xi ^ j) ∧
    (∀ deg : Nat, (powerVector (0:ℚ) deg).getD 0 0 = 1) ∧
    (Polynomial.ofDegrees [2]).evalBasisFunctions [3] = Except.ok [1, 3, 9] := by
  have hjth : ∀ (xi : ℚ) (deg j : Nat), j < deg + 1 →
      (powerVector xi deg).getD j 0 = xi ^ j := by
    intro xi deg j hj
    unfold powerVector
    exact getD_map_range (fun j => xi ^ j) (deg + 1) j hj 0
  refine ⟨hjth, fun deg => ?_, ?_⟩
  · rw [hjth 0 deg 0 (Nat.succ_pos deg)]
    exact pow_zero 0
  · rw [evalBasisFunctions_ofDegrees]
    norm_num [powerVectors, powerVector, kroneckerProductVectors, kronVec,
      List.range_succ]

/-- Witness for C4: entry 1 of the power vector for degree 2 at x = 2. -/
theorem power_vector_entries_witness :
    (1 < 2 + 1) ∧ (powerVector (2:ℚ) 2).getD 1 0 = (2:ℚ) ^ 1 :=
  ⟨by norm_num, power_vector_entries.1 2 2 1 (by norm_num)⟩

/-- C5: for every valid dimension index v and every point x,
evalDifferentiatedMonomials performs the same tensor-product construction as
evalBasisFunctions except that dimension v's power vector is replaced by the
derivative power vector, whose entry 0 is 0 and whose entry j is
j * x_v^(j-1) for 1 ≤ j ≤ d_v, all other dimensions using the plain power
vector. -/
theorem differentiated_monomials_spec :
    (∀ (ds : List Nat) (x : List ℚ) (v : Nat), v < ds.length →
      (Polynomial.ofDegrees ds).evalDifferentiatedMonomials x v =
        Except.ok (kroneckerProductVectors (diffPowerVectors ds x v))) ∧
    (∀ (xi : ℚ) (deg : Nat), (derivPowerVector xi deg).getD 0 0 = 0) ∧
    (∀ (xi : ℚ) (deg j : Nat), 1 ≤ j → j ≤ deg →
      (derivPowerVector xi deg).getD j 0 = (j : ℚ) * xi ^ (j - 1)) := by
  refine ⟨evalDifferentiatedMonomials_ofDegrees, fun xi deg => ?_, fun xi deg j h1 h2 => ?_⟩
  · unfold derivPowerVector
    rw [getD_map_range _ (deg + 1) 0 (Nat.succ_pos deg)]
    simp
  · unfold derivPowerVector
    rw [getD_map_range _ (deg + 1) j (by omega)]
    rw [if_neg (by omega)]

/-- Witness for C5 at degrees [1, 1], x = [2, 5], dimension 0 and at the
derivative power vector for degree 2 at x = 3, entry 2. -/
theorem differentiated_monomials_witness :
    ((0 < ([1, 1] : List ℕ).length) ∧
      (Polynomial.ofDegrees [1, 1]).evalDifferentiatedMonomials [2, 5] 0 =
        Except.ok (kroneckerProductVectors (diffPowerVectors [1, 1] [2, 5] 0))) ∧
    ((1 ≤ 2 ∧ 2 ≤ 2) ∧
      (derivPowerVector (3:ℚ) 2).getD 2 0 = ((2:ℕ) : ℚ) * (3:ℚ) ^ (2 - 1)) :=
  ⟨⟨by norm_num, differentiated_monomials_spec.1 [1, 1] [2, 5] 0 (by norm_num)⟩,
   ⟨⟨by norm_num, by norm_num⟩,
    differentiated_monomials_spec.2.2 3 2 2 (by norm_num) (by norm_num)⟩⟩

/-- C6: for a model with a zero-degree dimension v, the derivative power
vector for dimension v is the single-entry zero vector, so column v of
evalBasisFunctionsJacobian(x) is all zeros (the all-zero vector of length
computeNumBasisFunctions(degrees)); along that dimension the plain power
vector contributes the constant value 1. -/
theorem zero_degree_dimension :
    ∀ (ds : List Nat) (x : List ℚ) (v : Nat), v < ds.length → ds.getD v 0 = 0 →
      derivPowerVector (x.getD v 0) (ds.getD v 0) = [0] ∧
      powerVector (x.getD v 0) (ds.getD v 0) = [1] ∧
      Except.map (fun cols => cols.getD v [])
          ((Polynomial.ofDegrees ds).evalBasisFunctionsJacobian x) =
        Except.ok (List.replicate (computeNumBasisFunctions ds) 0) := by
  intro ds x v hv hd
  have hderiv : derivPowerVector (x.getD v 0) (ds.getD v 0) = [0] := by
    rw [hd]
    simp [derivPowerVector, List.range_succ]
  refine ⟨hderiv, ?_, ?_⟩
  · rw [hd]
    simp [powerVector, List.range_succ]
  · rw [evalBasisFunctionsJacobian_ofDegrees]
    have hcol : ((List.range ds.length).map (fun v =>
        kroneckerProductVectors (diffPowerVectors ds x v))).getD v [] =
        kroneckerProductVectors (diffPowerVectors ds x v) :=
      getD_map_range _ ds.length v hv []
    have hzero : ∀ y ∈ kroneckerProductVectors (diffPowerVectors ds x v), y = 0 :=
      kroneckerProductVectors_zero_of_mem _ _
        (mem_diffPowerVectors ds x v hv)
        (by rw [hderiv]; intro y hy; simpa using hy)
    have hlen : (kroneckerProductVectors (diffPowerVectors ds x v)).length =
        computeNumBasisFunctions ds := by
      rw [length_kroneckerProductVectors, prod_map_length_diffPowerVectors]
    simp only [Except.map, hcol]
    congr 1
    exact List.eq_replicate_iff.mpr ⟨hlen, hzero⟩

/-- Witness for C6 at degrees [0, 1], x = [7, 2], dimension 0. -/
theorem zero_degree_dimension_witness :
    ((0 < ([0, 1] : List ℕ).length) ∧ (([0, 1] : List ℕ).getD 0 0 = 0)) ∧
    (derivPowerVector (([(7:ℚ), 2]).getD 0 0) (([0, 1] : List ℕ).getD 0 0) = [0] ∧
     powerVector (([(7:ℚ), 2]).getD 0 0) (([0, 1] : List ℕ).getD 0 0) = [1] ∧
     Except.map (fun cols => cols.getD 0 [])
         ((Polynomial.ofDegrees [0, 1]).evalBasisFunctionsJacobian [7, 2]) =
       Except.ok (List.replicate (computeNumBasisFunctions [0, 1]) 0)) :=
  ⟨⟨by norm_num, rfl⟩, zero_degree_dimension [0, 1] [7, 2] 0 (by norm_num) rfl⟩

/-- C7: evalDifferentiatedMonomials raises the InvalidArgument error
("invalid variable") if and only if the dimension index is outside
[0, numVariables); the embedding is a pure function of the model, so no
partial computation or state change is observable when it raises. -/
theorem invalid_variable_iff :
    ∀ (p : Polynomial) (x : List ℚ) (v : Nat),
      p.evalDifferentiatedMonomials x v = Except.error PolyError.invalidArgument ↔
        p.numVariables ≤ v := by
  intro p x v
  constructor
  · intro h
    by_contra hv
    push_neg at hv
    unfold Polynomial.evalDifferentiatedMonomials at h
    rw [if_neg (by omega : ¬ v ≥ p.numVariables), except_pure, except_bind_ok] at h
    cases hm : (List.range p.numVariables).mapM (fun i => do
        let deg ← atExc p.degrees i
        pure (if v = i then derivPowerVector (x.getD i 0) deg
              else powerVector (x.getD i 0) deg)) with
    | error e =>
      have he : e = PolyError.outOfRange :=
        mapM_error_imp _ _ _
          (fun i _ e' h' => bind_atExc_error p.degrees i _ h') e hm
      rw [hm, except_bind_error] at h
      injection h with h1
      rw [h1] at he
      simp at he
    | ok powers =>
      rw [hm, except_bind_ok] at h
      simp only [except_throw, except_pure, except_bind_ok, except_bind_error,
        ne_eq] at h
      split at h
      · injection h with h1
        simp at h1
      · simp [pure, Except.pure] at h
  · intro h
    unfold Polynomial.evalDifferentiatedMonomials
    rw [if_pos (by omega : v ≥ p.numVariables), except_throw, except_bind_error]

/-- C8 counterexample: the claim says getDescription returns
"polynomial of degree D" for a uniform spec, but for two variables of degree 3
the code returns "PolynomialApproximant of degree 3". -/
theorem getDescription_claim_counterexample :
    (Polynomial.ofUniformDegree 2 3).getDescription ≠
      Except.ok "polynomial of degree 3" ∧
    (Polynomial.ofUniformDegree 2 3).getDescription =
      Except.ok "PolynomialApproximant of degree 3" := by
  have h := getDescription_equal (Polynomial.ofUniformDegree 2 3)
    (by decide) (by decide)
  have hs : ("PolynomialApproximant of degree" ++ " " ++
      toString ((Polynomial.ofUniformDegree 2 3).degrees.getD 0 0)) =
      "PolynomialApproximant of degree 3" := by decide
  rw [hs] at h
  exact ⟨by rw [h]; intro hc; injection hc with hc1; exact absurd hc1 (by decide), h⟩

/-- C8 amended: getDescription returns
"PolynomialApproximant of degree D" when all per-dimension degrees equal D
(uniform constructor with at least one variable), and otherwise returns
"PolynomialApproximant of degrees (d0, d1, ..., dn)" with the degrees listed
in dimension order separated by commas; the embedding is a pure function, so
there are no side effects. -/
theorem getDescription_amended :
    (∀ n d : Nat, 0 < n →
      (Polynomial.ofUniformDegree n d).getDescription =
        Except.ok ("PolynomialApproximant of degree" ++ " " ++ toString d)) ∧
    (∀ ds : List Nat,
      (∃ i, i + 1 < ds.length ∧ ds.getD (i + 1) 0 ≠ ds.getD i 0) →
      (Polynomial.ofDegrees ds).getDescription =
        Except.ok ("PolynomialApproximant of degree" ++ "s (" ++
          String.intercalate ", " (ds.map (fun d => toString d)) ++ ")")) := by
  constructor
  · intro n d hn
    have hdeg : (Polynomial.ofUniformDegree n d).degrees = List.replicate n d := rfl
    have hrep : ∀ i : Nat, i < n → (List.replicate n d).getD i 0 = d := by
      intro i hi
      rw [List.getD_eq_getElem?_getD, List.getElem?_replicate]
      simp [hi]
    have h := getDescription_equal (Polynomial.ofUniformDegree n d)
      (by rw [hdeg]; simp [List.replicate_eq_nil_iff]; omega)
      (by
        rw [hdeg, List.all_eq_true]
        intro i hi
        have hi' : i < n - 1 := by simpa using List.mem_range.mp hi
        rw [hrep (i + 1) (by omega), hrep i (by omega)]
        exact beq_self_eq_true d)
    rw [hdeg] at h
    rw [h, hrep 0 hn]
  · intro ds ⟨i, hi, hne⟩
    have hdeg : (Polynomial.ofDegrees ds).degrees = ds := rfl
    have h := getDescription_nonuniform (Polynomial.ofDegrees ds)
      (by
        rw [hdeg, List.all_eq_false]
        refine ⟨i, List.mem_range.mpr (by omega), ?_⟩
        simp only [List.getD_eq_getElem?_getD] at hne
        simp [beq_eq_false_iff_ne.mpr hne])
    rw [hdeg] at h
    exact h

/-- Witness for C8 amended at the uniform spec (2 variables of degree 3) and
the non-uniform spec [1, 2]. -/
theorem getDescription_amended_witness :
    ((0 < 2) ∧ (Polynomial.ofUniformDegree 2 3).getDescription =
      Except.ok ("PolynomialApproximant of degree" ++ " " ++ toString 3)) ∧
    ((0 + 1 < ([1, 2] : List ℕ).length ∧
        ([1, 2] : List ℕ).getD (0 + 1) 0 ≠ ([1, 2] : List ℕ).getD 0 0) ∧
      (Polynomial.ofDegrees [1, 2]).getDescription =
        Except.ok ("PolynomialApproximant of degree" ++ "s (" ++
          String.intercalate ", " ([1, 2].map (fun d => toString d)) ++ ")")) :=
  ⟨⟨by norm_num, getDescription_amended.1 2 3 (by norm_num)⟩,
   ⟨⟨by norm_num, by decide⟩,
    getDescription_amended.2 [1, 2] ⟨0, by norm_num, by decide⟩⟩⟩

/-- C9: the degrees-plus-coefficients constructor performs no validation of
the coefficient length against computeNumBasisFunctions(degrees): for degrees
[1] with the length-3 coefficient vector [1, 2, 3] construction succeeds, and
a subsequent evalBasisFunctions raises the InvariantViolation (length
mismatch) error instead of truncating or padding. -/
theorem unchecked_constructor_invariant :
    (Polynomial.ofDegreesCoefficients [1] [1, 2, 3]).coefficients.length ≠
      computeNumBasisFunctions [1] ∧
    (Polynomial.ofDegreesCoefficients [1] [1, 2, 3]).evalBasisFunctions [0] =
      Except.error PolyError.invariantViolation := by
  constructor
  · decide
  · norm_num [Polynomial.evalBasisFunctions, Polynomial.ofDegreesCoefficients,
      Polynomial.getNumCoefficients, atExc, powerVector, kroneckerProductVectors,
      kronVec, List.range_succ, except_throw, except_pure, except_bind_ok,
      except_bind_error, pure, Except.pure, List.mapM, List.mapM.loop]

/-- C10: for a model whose degree spec is empty (zero variables),
getDescription takes the all-degrees-equal branch vacuously and the access
degrees.at(0) raises the out-of-range error, so no string is returned. -/
theorem getDescription_empty_out_of_range :
    (Polynomial.ofDegrees []).getDescription =
      Except.error PolyError.outOfRange := by
  have h0 : (Polynomial.ofDegrees []).degrees = ([] : List Nat) := rfl
  unfold Polynomial.getDescription
  rw [h0]
  rfl

end SPLINTER
